import Mathlib

/-!
Verification of the aging bloom filter of Bitcoin_Sprint_Production_Final_2.

The repository ships the C API surface in `src/secure/rust/include/bloom_filter.h`
and `src/secure/rust/include/securebuffer.h` (the `bitcoin_bloom_filter_*`
functions); the implementation behind those declarations is not part of the
source tree, so the operational definitions below are modelled from the design
document (spec.md), faithfully to its words.  Machine integers are modelled as
`Nat` with explicit reductions `% 2^32` / `% 2^64` where the width matters;
timestamps are `Nat` seconds; the bit array is the `Finset Nat` of set bit
indices (spec section 3: `size_bits` individual bits addressed from 0, a bit is
either set or not).
-/

namespace AgingBloom

/-- Error codes, translated from `BloomFilterErrorCode` in
`src/secure/rust/include/bloom_filter.h` (values 0..5). -/
inductive BloomFilterErrorCode where
  | ok
  | invalidConfig
  | invalidInput
  | hashError
  | memoryError
  | concurrencyError
deriving DecidableEq, Repr

/-- Numeric value of each error code, as fixed in `bloom_filter.h`
(`BLOOM_OK = 0` .. `BLOOM_ERR_CONCURRENCY = 5`). -/
def BloomFilterErrorCode.code : BloomFilterErrorCode → Nat
  | .ok => 0
  | .invalidConfig => 1
  | .invalidInput => 2
  | .hashError => 3
  | .memoryError => 4
  | .concurrencyError => 5

/-- Modelled from the spec: `FilterConfig` of section 3 (the implementation
behind `bitcoin_bloom_filter_new` is absent from src/).  Fields mirror the
constructor arguments of `bitcoin_bloom_filter_new` in securebuffer.h:
`{ size_bits, num_hashes, tweak, flags, max_age_seconds, batch_size }`. -/
structure FilterConfig where
  sizeBits : Nat
  numHashes : Nat
  tweak : Nat
  flags : Nat
  maxAgeSeconds : Nat
  batchSize : Nat
deriving DecidableEq, Repr

/-- Modelled from the spec: `LedgerEntry` of section 3,
`{ fingerprint_digest : u64 (compact key), inserted_at : timestamp }`. -/
structure LedgerEntry where
  fingerprintDigest : Nat
  insertedAt : Nat
deriving DecidableEq, Repr

/-- Modelled from the spec: `FilterState` of section 3 (owned exclusively by
the AgingBloomFilter):
`{ config, bits, ledger, item_count, false_positive_observations }`.
The BitArray is the finite set of indices of set bits. -/
structure FilterState where
  config : FilterConfig
  bits : Finset Nat
  ledger : List LedgerEntry
  itemCount : Nat
  fpObservations : Nat
deriving DecidableEq

/-- Expected fixed identifier width in bytes (spec sections 3 and 6: a
32-byte identifier plus a 4-byte index form the 36-byte fingerprint). -/
def identBytes : Nat := 32

/-- Modelled from the spec: the fingerprint of section 3 — the fixed-size
36-byte sequence, 32-byte identifier followed by the 4 bytes of the `u32`
index (the concrete byte order of the index is not fixed by the spec;
little-endian is chosen, and nothing below depends on the choice). -/
def fingerprint (ident : List Nat) (idx : Nat) : List Nat :=
  ident ++ [idx % 256, idx / 256 % 256, idx / 2 ^ 16 % 256, idx / 2 ^ 24 % 256]

/-- One step of byte mixing for the fingerprint digest, kept in 64 bits. -/
def mixByte (acc b : Nat) : Nat :=
  (acc * 6364136223846793005 + b + 1442695040888963407) % 2 ^ 64

/-- Modelled from the spec: the compact 64-bit fingerprint digest stored in
ledger entries (section 3), packing the two independent 32-bit seed hashes
`h1, h2` of section 4.1, salted with `tweak`.  The spec fixes no concrete
hash function; any deterministic keyed mix is faithful, and every theorem
below is independent of the particular mix. -/
def digest64 (tweak : Nat) (fp : List Nat) : Nat :=
  fp.foldl mixByte (tweak % 2 ^ 64)

/-- First 32-bit seed hash `h1`, the high half of the compact digest. -/
def h1 (d : Nat) : Nat := d / 2 ^ 32

/-- Second 32-bit seed hash `h2`, the low half of the compact digest. -/
def h2 (d : Nat) : Nat := d % 2 ^ 32

/-- Modelled from the spec, section 4.1: the `i`-th bit position derived from
a digest is `(h1 + i*h2 + i*i) mod size_bits` (enhanced double hashing). -/
def positionsOfDigest (d k sizeBits : Nat) : List Nat :=
  (List.range k).map fun i => (h1 d + i * h2 d + i * i) % sizeBits

/-- Modelled from the spec, section 4.1 (HashFamily, whose implementation is
absent from src/): `positions(fingerprint, k, tweak, size_bits)` returns the
ordered sequence of `k` bit indices, each in `[0, size_bits)`, and fails with
`InvalidConfig` if `size_bits == 0`. -/
def positions (fp : List Nat) (k tweak sizeBits : Nat) :
    Except BloomFilterErrorCode (List Nat) :=
  if sizeBits = 0 then .error .invalidConfig
  else .ok (positionsOfDigest (digest64 tweak fp) k sizeBits)

/-- Configuration validity, spec section 3: `size_bits > 0`,
`1 ≤ num_hashes ≤ 32`, `batch_size > 0`. -/
def validConfig (c : FilterConfig) : Bool :=
  decide (0 < c.sizeBits) && decide (1 ≤ c.numHashes) &&
    decide (c.numHashes ≤ 32) && decide (0 < c.batchSize)

/-- The freshly-constructed state for a configuration, spec section 3:
all bits zero, empty ledger, zero counters. -/
def initialState (c : FilterConfig) : FilterState :=
  { config := c, bits := ∅, ledger := [], itemCount := 0, fpObservations := 0 }

/-- Modelled from the spec, section 6 (the implementation behind
`bitcoin_bloom_filter_new` / `bloom_filter_new` is absent from src/):
construction returns a handle when the configuration invariants hold and
fails with `InvalidConfig` otherwise. -/
def bloom_filter_new (c : FilterConfig) :
    Except BloomFilterErrorCode FilterState :=
  if validConfig c then .ok (initialState c) else .error .invalidConfig

/-- Modelled from the spec, section 4.4 (the implementation behind
`bitcoin_bloom_filter_insert_utxo` is absent from src/): `insert` builds the
fingerprint, computes the `k` positions, sets each bit, records a ledger
entry with the current time and increments `item_count`.  It fails with
`InvalidInput` when the identifier length differs from the expected fixed
width, leaving the state untouched (section 7: input errors are local to the
single call and do not corrupt filter state); a zero `size_bits` makes the
hash family fail with `InvalidConfig`, likewise without touching the state. -/
def insert (st : FilterState) (ident : List Nat) (idx now : Nat) :
    FilterState × BloomFilterErrorCode :=
  if ident.length ≠ identBytes then (st, .invalidInput)
  else if st.config.sizeBits = 0 then (st, .invalidConfig)
  else
    let ps := positionsOfDigest (digest64 st.config.tweak (fingerprint ident idx))
      st.config.numHashes st.config.sizeBits
    ({ st with
        bits := st.bits ∪ ps.toFinset
        ledger := st.ledger ++
          [{ fingerprintDigest := digest64 st.config.tweak (fingerprint ident idx)
             insertedAt := now }]
        itemCount := st.itemCount + 1 }, .ok)

/-- Modelled from the spec, section 4.4: `contains` computes the same `k`
positions and returns true only if every corresponding bit is set.  Inputs
the hash family rejects (and malformed identifiers) yield false. -/
def contains (st : FilterState) (ident : List Nat) (idx : Nat) : Bool :=
  if ident.length ≠ identBytes then false
  else if st.config.sizeBits = 0 then false
  else
    (positionsOfDigest (digest64 st.config.tweak (fingerprint ident idx))
      st.config.numHashes st.config.sizeBits).all fun p => decide (p ∈ st.bits)

/-- Modelled from the spec, section 4.4: `insert_batch` applies `insert` for
each pair and reports a per-item success flag; a failed item leaves the state
unchanged and the batch continues (section 7: batch operations report
per-item status rather than aborting on first failure). -/
def insertBatch (st : FilterState) (pairs : List (List Nat × Nat)) (now : Nat) :
    FilterState × List Bool :=
  match pairs with
  | [] => (st, [])
  | (ident, idx) :: rest =>
      let r := insert st ident idx now
      let tail := insertBatch r.1 rest now
      (tail.1, (r.2 = BloomFilterErrorCode.ok) :: tail.2)

/-- The sequential composition of single inserts, the reference point of the
batch-equivalence property of spec section 8. -/
def insertSeq (st : FilterState) (pairs : List (List Nat × Nat)) (now : Nat) :
    FilterState :=
  match pairs with
  | [] => st
  | (ident, idx) :: rest => insertSeq (insert st ident idx now).1 rest now

/-- Modelled from the spec, section 4.3: an entry is expired when
`now - inserted_at > max_age_seconds` (timestamps never run backwards in the
model, so `Nat` subtraction matches the spec's arithmetic). -/
def isExpired (now maxAge : Nat) (e : LedgerEntry) : Bool :=
  decide (maxAge < now - e.insertedAt)

/-- The ledger entries surviving a prune at time `now`, spec section 4.3. -/
def survivors (st : FilterState) (now : Nat) : List LedgerEntry :=
  st.ledger.filter fun e => ! isExpired now st.config.maxAgeSeconds e

/-- The number of entries a prune at time `now` removes. -/
def removedCount (st : FilterState) (now : Nat) : Nat :=
  st.ledger.length - (survivors st now).length

/-- Modelled from the spec, section 4.4: the rebuild threshold — a rebuild
happens when the fraction of entries removed exceeds 25% of the current
`item_count`, i.e. `removed / item_count > 1/4`, i.e.
`4 * removed > item_count`. -/
def rebuildTriggered (st : FilterState) (now : Nat) : Bool :=
  decide (st.itemCount < 4 * removedCount st now)

/-- Modelled from the spec, sections 4.4 and 3: the rebuilt bit array —
start from all bits clear and re-insert every surviving ledger fingerprint's
bit positions, re-hashing from the stored compact digest (ledger entries
reference bit positions only indirectly, by re-hashing on rebuild). -/
def rebuildBits (cfg : FilterConfig) : List LedgerEntry → Finset Nat
  | [] => ∅
  | e :: rest =>
      (positionsOfDigest e.fingerprintDigest cfg.numHashes cfg.sizeBits).toFinset ∪
        rebuildBits cfg rest

/-- Modelled from the spec, section 4.4 (the implementation behind
`bitcoin_bloom_filter_cleanup` is absent from src/): `cleanup(now)` prunes
expired ledger entries and returns the number removed; when the rebuild
threshold is exceeded it additionally clears the BitSet and re-populates it
from the surviving fingerprints, appending no new ledger entries. -/
def cleanup (st : FilterState) (now : Nat) : FilterState × Nat :=
  let surv := survivors st now
  let removed := removedCount st now
  if rebuildTriggered st now then
    ({ st with
        bits := rebuildBits st.config surv
        ledger := surv
        itemCount := st.itemCount - removed }, removed)
  else
    ({ st with ledger := surv, itemCount := st.itemCount - removed }, removed)

/-- Modelled from the spec, section 4.4: the auto-cleanup policy threshold —
`auto_cleanup` performs a cleanup only when the ledger size exceeds a
threshold derived from `batch_size`. -/
def autoCleanupNeeded (st : FilterState) : Bool :=
  decide (st.config.batchSize < st.ledger.length)

/-- Modelled from the spec, section 4.4: `auto_cleanup(now)` calls `cleanup`
only when the policy threshold is exceeded. -/
def autoCleanup (st : FilterState) (now : Nat) : FilterState :=
  if autoCleanupNeeded st then (cleanup st now).1 else st

/-- The mutating operations of the public API, spec section 4.4 (`contains`,
`contains_batch` and `stats` are pure reads and change no state). -/
inductive Op where
  | insert (ident : List Nat) (idx now : Nat)
  | insertBatch (pairs : List (List Nat × Nat)) (now : Nat)
  | cleanup (now : Nat)
  | autoCleanup (now : Nat)
deriving DecidableEq, Repr

/-- The state transition of one public operation. -/
def step (st : FilterState) : Op → FilterState
  | .insert ident idx now => (insert st ident idx now).1
  | .insertBatch pairs now => (insertBatch st pairs now).1
  | .cleanup now => (cleanup st now).1
  | .autoCleanup now => autoCleanup st now

/-- Running a sequence of public operations from a state. -/
def run (st : FilterState) (ops : List Op) : FilterState := ops.foldl step st

/-- The compact digest under which a key is tracked in a state's ledger. -/
def keyDigest (st : FilterState) (ident : List Nat) (idx : Nat) : Nat :=
  digest64 st.config.tweak (fingerprint ident idx)

/-- One operation keeps a digest alive: every rebuild the operation performs
happens with an entry for that digest still in the pruned ledger (a cleanup
that prunes all of the digest's entries and then rebuilds is exactly the
"removed by a subsequent rebuild that pruned it" escape clause of the
no-false-negatives property, spec section 8). -/
def opKeepsKey (st : FilterState) (d : Nat) : Op → Bool
  | .cleanup now =>
      ! rebuildTriggered st now ||
        (survivors st now).any fun e => decide (e.fingerprintDigest = d)
  | .autoCleanup now =>
      ! autoCleanupNeeded st || ! rebuildTriggered st now ||
        (survivors st now).any fun e => decide (e.fingerprintDigest = d)
  | _ => true

/-- A digest survives a whole operation sequence: every rebuild along the way
still finds one of its ledger entries. -/
def keySurvives (st : FilterState) (d : Nat) : List Op → Bool
  | [] => true
  | op :: rest => opKeepsKey st d op && keySurvives (step st op) d rest

/-- An operation performs a rebuild (clearing the bit array) exactly when it
is a cleanup — direct or via the auto-cleanup policy — whose prune crosses
the rebuild threshold, spec section 4.4. -/
def opRebuilds (st : FilterState) : Op → Bool
  | .cleanup now => rebuildTriggered st now
  | .autoCleanup now => autoCleanupNeeded st && rebuildTriggered st now
  | _ => false

/-- Modelled from the spec, section 7 (the implementation behind the rebuild
path of `bitcoin_bloom_filter_cleanup` is absent from src/): the staging step
of a rebuild — the replacement BitSet is fully built aside before being
swapped in; an allocation failure (`allocOk = false`) yields no staged set. -/
def stageRebuild (allocOk : Bool) (cfg : FilterConfig)
    (ledger : List LedgerEntry) : Option (Finset Nat) :=
  if allocOk then some (rebuildBits cfg ledger) else none

/-- Modelled from the spec, section 7: the all-or-nothing rebuild — the live
BitSet is replaced only when staging succeeded; on allocation failure the
operation reports a memory error and the filter keeps its prior state. -/
def rebuild (st : FilterState) (allocOk : Bool) :
    FilterState × BloomFilterErrorCode :=
  match stageRebuild allocOk st.config st.ledger with
  | some newBits => ({ st with bits := newBits }, .ok)
  | none => (st, .memoryError)

/-- Modelled from the spec, section 4.4 (the implementation behind
`bitcoin_bloom_filter_false_positive_rate` is absent from src/): the
closed-form approximation `(1 - e^(-k*n/m))^k` with `n = item_count`,
`m = size_bits`, `k = num_hashes`; the C `double` arithmetic is idealised
over the reals. -/
noncomputable def false_positive_rate (st : FilterState) : ℝ :=
  (1 - Real.exp (-((st.config.numHashes : ℝ) * (st.itemCount : ℝ) /
      (st.config.sizeBits : ℝ)))) ^ st.config.numHashes

/-- Modelled from the spec, section 6 (the implementation behind
`bitcoin_bloom_filter_new_default` is absent from src/): a fixed preset
configuration, sized as in the scenario of spec section 8. -/
def defaultConfig : FilterConfig :=
  { sizeBits := 10000, numHashes := 4, tweak := 0, flags := 0,
    maxAgeSeconds := 60, batchSize := 16 }

/-- The freshly-constructed default filter, used as a concrete test state. -/
def defaultState : FilterState := initialState defaultConfig

/-- A concrete 32-byte identifier for concrete evaluations. -/
def identZero : List Nat := List.replicate 32 0

/-- C2: for every fingerprint, `k`, `tweak` and positive `size_bits` (written
`n + 1`), the hash family returns an ordered sequence of exactly `k` bit
indices, each in `[0, size_bits)`, whose `i`-th element is
`(h1 + i*h2 + i*i) mod size_bits` for the two seed hashes of the salted
fingerprint digest; with `size_bits = 0` it fails with `InvalidConfig`.
Determinism in the inputs is immediate: `positions` is a pure function of
its four arguments. -/
theorem positions_spec (fp : List Nat) (k tweak n : Nat) :
    positions fp k tweak 0 = Except.error BloomFilterErrorCode.invalidConfig ∧
    ∃ l, positions fp k tweak (n + 1) = Except.ok l ∧
      l.length = k ∧
      (∀ i, ∀ hi : i < l.length,
        l.get ⟨i, hi⟩ =
          (h1 (digest64 tweak fp) + i * h2 (digest64 tweak fp) + i * i) % (n + 1)) ∧
      (∀ x ∈ l, x < n + 1) := by
  refine ⟨rfl, positionsOfDigest (digest64 tweak fp) k (n + 1), ?_, ?_, ?_, ?_⟩
  · simp [positions]
  · simp [positionsOfDigest]
  · intro i hi
    simp only [positionsOfDigest, List.get_eq_getElem, List.getElem_map,
      List.getElem_range]
  · intro x hx
    simp only [positionsOfDigest, List.mem_map, List.mem_range] at hx
    obtain ⟨i, _, rfl⟩ := hx
    exact Nat.mod_lt _ (Nat.succ_pos n)

/-- Concrete evaluation of `positions_spec` at fingerprint `[]`, `k = 3`,
tweak `5` and sizes `0` and `7`. -/
theorem positions_spec_witness :
    positions [] 3 5 0 = Except.error BloomFilterErrorCode.invalidConfig ∧
    ∃ l, positions [] 3 5 (6 + 1) = Except.ok l ∧
      l.length = 3 ∧
      (∀ i, ∀ hi : i < l.length,
        l.get ⟨i, hi⟩ =
          (h1 (digest64 5 []) + i * h2 (digest64 5 []) + i * i) % (6 + 1)) ∧
      (∀ x ∈ l, x < 6 + 1) :=
  positions_spec [] 3 5 6

/-- C4: construction succeeds exactly on configurations with
`size_bits > 0`, `1 ≤ num_hashes ≤ 32` and `batch_size > 0`, returning the
fresh all-zero state; otherwise it fails with `InvalidConfig` and no filter
state is produced. -/
theorem new_spec (c : FilterConfig) :
    (bloom_filter_new c =
      if 0 < c.sizeBits ∧ 1 ≤ c.numHashes ∧ c.numHashes ≤ 32 ∧ 0 < c.batchSize
      then Except.ok (initialState c)
      else Except.error BloomFilterErrorCode.invalidConfig) ∧
    ((∃ st, bloom_filter_new c = Except.ok st) ↔
      0 < c.sizeBits ∧ 1 ≤ c.numHashes ∧ c.numHashes ≤ 32 ∧ 0 < c.batchSize) := by
  have hv : validConfig c = true ↔
      (0 < c.sizeBits ∧ 1 ≤ c.numHashes ∧ c.numHashes ≤ 32 ∧ 0 < c.batchSize) := by
    simp [validConfig, and_assoc]
  constructor
  · by_cases h : validConfig c = true
    · rw [if_pos (hv.mp h)]
      simp [bloom_filter_new, h]
    · rw [if_neg fun hc => h (hv.mpr hc)]
      simp only [bloom_filter_new]
      rw [if_neg h]
  · constructor
    · rintro ⟨st, hst⟩
      by_contra hc
      have hnv : ¬ validConfig c = true := fun hh => hc (hv.mp hh)
      simp only [bloom_filter_new] at hst
      rw [if_neg hnv] at hst
      cases hst
    · intro hc
      exact ⟨initialState c, by simp [bloom_filter_new, hv.mpr hc]⟩

/-- C9: an insert whose identifier is not exactly 32 bytes long fails with
`InvalidInput` and returns the state unchanged — bits, ledger and
`item_count` all identical. -/
theorem insert_invalid_input (st : FilterState) (ident : List Nat)
    (idx now : Nat) (h : ident.length ≠ 32) :
    insert st ident idx now = (st, BloomFilterErrorCode.invalidInput) := by
  unfold insert
  rw [if_pos (by simpa [identBytes] using h)]

/-- Concrete evaluation of `insert_invalid_input` on the empty identifier. -/
theorem insert_invalid_input_witness :
    ([] : List Nat).length ≠ 32 ∧
    insert defaultState [] 0 0 = (defaultState, BloomFilterErrorCode.invalidInput) :=
  ⟨by decide, insert_invalid_input defaultState [] 0 0 (by decide)⟩

/-- C8: a rebuild whose staging fails (allocation failure) reports an error
and leaves the filter state exactly as it was — the live bit set is never
mutated before the staged replacement is fully ready. -/
theorem rebuild_all_or_nothing (st : FilterState) (allocOk : Bool)
    (h : (rebuild st allocOk).2 ≠ BloomFilterErrorCode.ok) :
    (rebuild st allocOk).1 = st := by
  cases allocOk with
  | false => rfl
  | true => exact absurd rfl h

/-- Concrete evaluation of `rebuild_all_or_nothing` on the default filter
with a failing allocation. -/
theorem rebuild_all_or_nothing_witness :
    (rebuild defaultState false).2 ≠ BloomFilterErrorCode.ok ∧
    (rebuild defaultState false).1 = defaultState :=
  ⟨by decide, rebuild_all_or_nothing defaultState false (by decide)⟩

/-- Splitting a list by a predicate splits its length. -/
theorem length_filter_split {α : Type} (p : α → Bool) (l : List α) :
    (l.filter fun a => ! p a).length + (l.filter p).length = l.length := by
  induction l with
  | nil => rfl
  | cons a t ih =>
      by_cases h : p a = true
      · simp [List.filter, h, ← ih]
        omega
      · have h' : p a = false := by
          cases hpa : p a
          · rfl
          · exact absurd hpa h
        simp [List.filter, h', ← ih]
        omega

/-- The number of removed entries is the number of expired entries. -/
theorem removedCount_eq (st : FilterState) (now : Nat) :
    removedCount st now =
      (st.ledger.filter fun e => isExpired now st.config.maxAgeSeconds e).length := by
  have := length_filter_split (fun e => isExpired now st.config.maxAgeSeconds e)
    st.ledger
  unfold removedCount survivors
  omega

/-- Both branches of `cleanup` return the pruned count. -/
theorem cleanup_snd (st : FilterState) (now : Nat) :
    (cleanup st now).2 = removedCount st now := by
  unfold cleanup
  split <;> rfl

/-- `cleanup` keeps the surviving entries as the new ledger. -/
theorem cleanup_ledger (st : FilterState) (now : Nat) :
    (cleanup st now).1.ledger = survivors st now := by
  unfold cleanup
  split <;> rfl

/-- `cleanup` leaves the configuration untouched. -/
theorem cleanup_config (st : FilterState) (now : Nat) :
    (cleanup st now).1.config = st.config := by
  unfold cleanup
  split <;> rfl

/-- `cleanup` decrements the item count by the pruned count. -/
theorem cleanup_itemCount (st : FilterState) (now : Nat) :
    (cleanup st now).1.itemCount = st.itemCount - removedCount st now := by
  unfold cleanup
  split <;> rfl

/-- The bit array after `cleanup`: rebuilt from the survivors when the
threshold is crossed, untouched otherwise. -/
theorem cleanup_bits (st : FilterState) (now : Nat) :
    (cleanup st now).1.bits =
      if rebuildTriggered st now then rebuildBits st.config (survivors st now)
      else st.bits := by
  unfold cleanup
  by_cases h : rebuildTriggered st now = true
  · rw [if_pos h, if_pos h]
  · rw [if_neg h, if_neg h]

/-- C3: `cleanup` removes exactly the ledger entries whose age
`now - inserted_at` exceeds `max_age_seconds` and returns how many it
removed; it rebuilds the bit array from the surviving fingerprints — never
appending a ledger entry — exactly when the removed fraction exceeds 25% of
the current item count (`4 * removed > item_count`), and leaves the bit
array untouched otherwise. -/
theorem cleanup_spec (st : FilterState) (now : Nat) :
    (cleanup st now).2 =
      (st.ledger.filter fun e =>
        decide (st.config.maxAgeSeconds < now - e.insertedAt)).length ∧
    (cleanup st now).1.ledger =
      st.ledger.filter (fun e =>
        ! decide (st.config.maxAgeSeconds < now - e.insertedAt)) ∧
    (cleanup st now).1.config = st.config ∧
    (cleanup st now).1.itemCount = st.itemCount - (cleanup st now).2 ∧
    (cleanup st now).1.bits =
      (if st.itemCount < 4 * (cleanup st now).2 then
        rebuildBits st.config ((cleanup st now).1.ledger)
      else st.bits) := by
  refine ⟨?_, ?_, cleanup_config st now, ?_, ?_⟩
  · rw [cleanup_snd, removedCount_eq]
    rfl
  · rw [cleanup_ledger]
    rfl
  · rw [cleanup_itemCount, cleanup_snd]
  · rw [cleanup_bits, cleanup_snd, cleanup_ledger]
    unfold rebuildTriggered
    by_cases h : st.itemCount < 4 * removedCount st now
    · rw [if_pos h, if_pos (by simpa using h)]
    · rw [if_neg h, if_neg (by simpa using h)]

/-- C6: a batch insert is state-equivalent to the sequence of its single
inserts and reports one success flag per input pair. -/
theorem insert_batch_equiv (st : FilterState)
    (pairs : List (List Nat × Nat)) (now : Nat) :
    (insertBatch st pairs now).1 = insertSeq st pairs now ∧
    (insertBatch st pairs now).2.length = pairs.length := by
  induction pairs generalizing st with
  | nil => exact ⟨rfl, rfl⟩
  | cons p rest ih =>
      obtain ⟨ident, idx⟩ := p
      unfold insertBatch insertSeq
      exact ⟨(ih (insert st ident idx now).1).1, by
        simp [(ih (insert st ident idx now).1).2]⟩

/-- C7: the theoretical false-positive rate is the closed-form
`(1 - e^(-k*n/m))^k` and always lies in `[0, 1]`. -/
theorem false_positive_rate_spec (st : FilterState) :
    false_positive_rate st =
      (1 - Real.exp (-((st.config.numHashes : ℝ) * (st.itemCount : ℝ) /
        (st.config.sizeBits : ℝ)))) ^ st.config.numHashes ∧
    0 ≤ false_positive_rate st ∧ false_positive_rate st ≤ 1 := by
  have hx : (0 : ℝ) ≤ (st.config.numHashes : ℝ) * (st.itemCount : ℝ) /
      (st.config.sizeBits : ℝ) :=
    div_nonneg (mul_nonneg (Nat.cast_nonneg _) (Nat.cast_nonneg _))
      (Nat.cast_nonneg _)
  have hle : Real.exp (-((st.config.numHashes : ℝ) * (st.itemCount : ℝ) /
      (st.config.sizeBits : ℝ))) ≤ 1 := by
    calc Real.exp (-((st.config.numHashes : ℝ) * (st.itemCount : ℝ) /
        (st.config.sizeBits : ℝ))) ≤ Real.exp 0 :=
          Real.exp_le_exp.mpr (neg_nonpos.mpr hx)
      _ = 1 := Real.exp_zero
  have hpos : 0 < Real.exp (-((st.config.numHashes : ℝ) * (st.itemCount : ℝ) /
      (st.config.sizeBits : ℝ))) := Real.exp_pos _
  refine ⟨rfl, pow_nonneg (by linarith) _, pow_le_one₀ (by linarith) (by linarith)⟩

/-- A single insert never clears a bit. -/
theorem insert_bits_subset (st : FilterState) (ident : List Nat)
    (idx now : Nat) : st.bits ⊆ (insert st ident idx now).1.bits := by
  unfold insert
  split
  · exact Finset.Subset.refl _
  · split
    · exact Finset.Subset.refl _
    · exact Finset.subset_union_left

/-- A single insert never changes the configuration. -/
theorem insert_config (st : FilterState) (ident : List Nat) (idx now : Nat) :
    (insert st ident idx now).1.config = st.config := by
  unfold insert
  split
  · rfl
  · split <;> rfl

/-- A batch insert never clears a bit. -/
theorem insertBatch_bits_subset (st : FilterState)
    (pairs : List (List Nat × Nat)) (now : Nat) :
    st.bits ⊆ (insertBatch st pairs now).1.bits := by
  induction pairs generalizing st with
  | nil => exact Finset.Subset.refl _
  | cons p rest ih =>
      obtain ⟨ident, idx⟩ := p
      exact (insert_bits_subset st ident idx now).trans
        (ih (insert st ident idx now).1)

/-- A batch insert never changes the configuration. -/
theorem insertBatch_config (st : FilterState)
    (pairs : List (List Nat × Nat)) (now : Nat) :
    (insertBatch st pairs now).1.config = st.config := by
  induction pairs generalizing st with
  | nil => rfl
  | cons p rest ih =>
      obtain ⟨ident, idx⟩ := p
      exact (ih (insert st ident idx now).1).trans
        (insert_config st ident idx now)

/-- Auto-cleanup never changes the configuration. -/
theorem autoCleanup_config (st : FilterState) (now : Nat) :
    (autoCleanup st now).config = st.config := by
  unfold autoCleanup
  split
  · exact cleanup_config st now
  · rfl

/-- No public operation changes the configuration — spec section 3: the
configuration is immutable for the filter lifetime. -/
theorem step_config (st : FilterState) (op : Op) :
    (step st op).config = st.config := by
  cases op with
  | insert ident idx now => exact insert_config st ident idx now
  | insertBatch pairs now => exact insertBatch_config st pairs now
  | cleanup now => exact cleanup_config st now
  | autoCleanup now => exact autoCleanup_config st now

/-- C5: every public operation either preserves every set bit or is a
cleanup whose prune crosses the rebuild threshold — a full rebuild is the
only mechanism that can unset a bit, and no operation clears an individual
bit outside it. -/
theorem bits_monotone_except_rebuild (st : FilterState) (op : Op) :
    st.bits ⊆ (step st op).bits ∨ opRebuilds st op = true := by
  cases op with
  | insert ident idx now => exact Or.inl (insert_bits_subset st ident idx now)
  | insertBatch pairs now => exact Or.inl (insertBatch_bits_subset st pairs now)
  | cleanup now =>
      by_cases h : rebuildTriggered st now = true
      · exact Or.inr h
      · refine Or.inl ?_
        show st.bits ⊆ (cleanup st now).1.bits
        rw [cleanup_bits, if_neg h]
  | autoCleanup now =>
      by_cases hn : autoCleanupNeeded st = true
      · by_cases h : rebuildTriggered st now = true
        · exact Or.inr (by simp [opRebuilds, hn, h])
        · refine Or.inl ?_
          show st.bits ⊆ (autoCleanup st now).bits
          unfold autoCleanup
          rw [if_pos hn, cleanup_bits, if_neg h]
      · refine Or.inl ?_
        show st.bits ⊆ (autoCleanup st now).bits
        unfold autoCleanup
        rw [if_neg hn]

/-- Successful position derivation forces a positive size and determines the
result list. -/
theorem positions_ok_inv (fp : List Nat) (k tw m : Nat) (ps : List Nat)
    (h : positions fp k tw m = Except.ok ps) :
    ps = positionsOfDigest (digest64 tw fp) k m := by
  unfold positions at h
  split at h
  · cases h
  · cases h
    rfl

/-- Every ledger entry's positions are contained in the rebuilt bit array. -/
theorem mem_rebuildBits (cfg : FilterConfig) (ledger : List LedgerEntry)
    (e : LedgerEntry) (he : e ∈ ledger) :
    (positionsOfDigest e.fingerprintDigest cfg.numHashes cfg.sizeBits).toFinset ⊆
      rebuildBits cfg ledger := by
  induction ledger with
  | nil => cases he
  | cons a t ih =>
      cases he with
      | head => exact Finset.subset_union_left
      | tail _ htail => exact (ih htail).trans Finset.subset_union_right

/-- A positive `contains` verdict is preserved by growing the bit array
under an unchanged configuration. -/
theorem contains_mono (st st' : FilterState) (ident : List Nat) (idx : Nat)
    (hcfg : st'.config = st.config) (hb : st.bits ⊆ st'.bits)
    (hc : contains st ident idx = true) : contains st' ident idx = true := by
  unfold contains at hc ⊢
  rw [hcfg]
  by_cases hl : ident.length ≠ identBytes
  · rw [if_pos hl] at hc
    cases hc
  · rw [if_neg hl] at hc ⊢
    by_cases hz : st.config.sizeBits = 0
    · rw [if_pos hz] at hc
      cases hc
    · rw [if_neg hz] at hc ⊢
      simp only [List.all_eq_true, decide_eq_true_eq] at hc ⊢
      exact fun p hpm => hb (hc p hpm)

/-- A successful insert makes the inserted key contained — the base case of
the no-false-negatives property. -/
theorem insert_ok_contains (st : FilterState) (ident : List Nat)
    (idx now : Nat) (h : (insert st ident idx now).2 = BloomFilterErrorCode.ok) :
    contains (insert st ident idx now).1 ident idx = true := by
  unfold insert at h ⊢
  by_cases hl : ident.length ≠ identBytes
  · rw [if_pos hl] at h
    cases h
  · rw [if_neg hl] at h ⊢
    by_cases hz : st.config.sizeBits = 0
    · rw [if_pos hz] at h
      cases h
    · rw [if_neg hz]
      unfold contains
      rw [if_neg hl, if_neg hz]
      simp only [List.all_eq_true, decide_eq_true_eq]
      intro p hpm
      exact Finset.mem_union_right _ (List.mem_toFinset.mpr hpm)

/-- A cleanup keeps a contained key contained as long as any rebuild it
performs still finds a surviving ledger entry for the key's digest. -/
theorem contains_cleanup_keep (st : FilterState) (now : Nat)
    (ident : List Nat) (idx : Nat)
    (hc : contains st ident idx = true)
    (hk : (! rebuildTriggered st now ||
      (survivors st now).any fun e =>
        decide (e.fingerprintDigest = keyDigest st ident idx)) = true) :
    contains (cleanup st now).1 ident idx = true := by
  by_cases hr : rebuildTriggered st now = true
  · have hany : (survivors st now).any (fun e =>
        decide (e.fingerprintDigest = keyDigest st ident idx)) = true := by
      simpa [hr] using hk
    obtain ⟨e, hmem, hde⟩ := List.any_eq_true.mp hany
    have hdig : e.fingerprintDigest = keyDigest st ident idx :=
      of_decide_eq_true hde
    unfold contains at hc ⊢
    rw [cleanup_config]
    by_cases hl : ident.length ≠ identBytes
    · rw [if_pos hl] at hc
      cases hc
    · rw [if_neg hl] at hc ⊢
      by_cases hz : st.config.sizeBits = 0
      · rw [if_pos hz] at hc
        cases hc
      · rw [if_neg hz] at hc ⊢
        simp only [List.all_eq_true, decide_eq_true_eq] at hc ⊢
        intro p hpm
        rw [cleanup_bits, if_pos hr]
        refine mem_rebuildBits st.config (survivors st now) e hmem ?_
        refine List.mem_toFinset.mpr ?_
        rw [hdig]
        exact hpm
  · exact contains_mono st (cleanup st now).1 ident idx (cleanup_config st now)
      (by rw [cleanup_bits, if_neg hr]) hc

/-- One public operation preserves a positive `contains` verdict whenever it
keeps the key's digest alive. -/
theorem contains_step (st : FilterState) (op : Op) (ident : List Nat)
    (idx : Nat) (hc : contains st ident idx = true)
    (hk : opKeepsKey st (keyDigest st ident idx) op = true) :
    contains (step st op) ident idx = true := by
  cases op with
  | insert ident' idx' now =>
      exact contains_mono st _ ident idx (insert_config st ident' idx' now)
        (insert_bits_subset st ident' idx' now) hc
  | insertBatch pairs now =>
      exact contains_mono st _ ident idx (insertBatch_config st pairs now)
        (insertBatch_bits_subset st pairs now) hc
  | cleanup now => exact contains_cleanup_keep st now ident idx hc hk
  | autoCleanup now =>
      show contains (autoCleanup st now) ident idx = true
      unfold autoCleanup
      by_cases hn : autoCleanupNeeded st = true
      · rw [if_pos hn]
        refine contains_cleanup_keep st now ident idx hc ?_
        simpa [opKeepsKey, hn] using hk
      · rw [if_neg hn]
        exact hc

/-- A positive `contains` verdict survives any operation sequence along
which the key's digest survives every rebuild. -/
theorem contains_run (ops : List Op) (st : FilterState) (ident : List Nat)
    (idx : Nat) (hc : contains st ident idx = true)
    (hs : keySurvives st (keyDigest st ident idx) ops = true) :
    contains (run st ops) ident idx = true := by
  induction ops generalizing st with
  | nil => exact hc
  | cons op rest ih =>
      unfold keySurvives at hs
      rw [Bool.and_eq_true] at hs
      obtain ⟨hka, hkb⟩ := hs
      have hc' := contains_step st op ident idx hc hka
      have hkd : keyDigest (step st op) ident idx = keyDigest st ident idx := by
        unfold keyDigest
        rw [step_config]
      exact ih (step st op) hc' (by rw [hkd]; exact hkb)

/-- C1: for every key whose insert succeeded, running any sequence of public
operations afterwards — as long as no rebuild along the way pruned away the
key's last ledger entry — leaves `contains` true for that key: the
no-false-negatives guarantee. -/
theorem no_false_negatives (st : FilterState) (ident : List Nat)
    (idx now : Nat) (ops : List Op)
    (hok : (insert st ident idx now).2 = BloomFilterErrorCode.ok)
    (hs : keySurvives (insert st ident idx now).1
      (keyDigest st ident idx) ops = true) :
    contains (run (insert st ident idx now).1 ops) ident idx = true := by
  have hc0 : contains (insert st ident idx now).1 ident idx = true :=
    insert_ok_contains st ident idx now hok
  have hkd : keyDigest (insert st ident idx now).1 ident idx =
      keyDigest st ident idx := by
    unfold keyDigest
    rw [insert_config]
  exact contains_run ops (insert st ident idx now).1 ident idx hc0
    (by rw [hkd]; exact hs)

/-- Concrete run of `no_false_negatives`: insert the all-zero key into the
default filter at time 0, clean up at time 30 (nothing expires), and the key
is still contained. -/
theorem no_false_negatives_witness :
    (insert defaultState identZero 0 0).2 = BloomFilterErrorCode.ok ∧
    keySurvives (insert defaultState identZero 0 0).1
      (keyDigest defaultState identZero 0) [Op.cleanup 30] = true ∧
    contains (run (insert defaultState identZero 0 0).1 [Op.cleanup 30])
      identZero 0 = true :=
  ⟨by decide, by decide,
    no_false_negatives defaultState identZero 0 0 [Op.cleanup 30]
      (by decide) (by decide)⟩

end AgingBloom
